import Mathlib

/-!
# scorep_plugin_nvml: the sampling engine and the sampling plugin

A shallow embedding of `include/nvml_measurement_thread.hpp` (the periodic sampling
engine and its sample store) and of `include/nvml_sampling_plugin.hpp` (handle
construction, interval configuration and the post-mortem read path).

Conventions of the embedding.

* A thrown C++ exception is a value of `Thrown`; a call that may throw returns `Except Thrown _`.
* The external Metric Source (`Sampling_Metric::get_value`) is an input of every operation
  that queries it: a function from the metric, the device and the last-seen timestamp to
  what the call returns or throws.
* `std::mutex m_mutex` is rendered by the atomicity of the operations: the poll cycle holds
  the lock for the whole inner loop, `get_readings` and `stop_measurement` for their body.
* `std::unordered_map` is an association list in iteration order; the standard does not fix
  that order, so statements that depend on it quantify over the order or spell it out.
-/

namespace Nvml

/-! ## Types shared by both headers -/

/-- The vendor library's device handle `nvmlDevice_t`, opaque to this code. -/
abbrev nvmlDevice_t := Nat

/-- A `Sampling_Metric*`: the pointer value identifies one Metric Source. -/
abbrev Sampling_Metric := Nat

/-- The exceptions that occur in the two headers. -/
inductive Thrown where
  /-- The `scorep::exception::null_pointer` caught by the sampling loop. -/
  | null_pointer
  /-- The `std::invalid_argument` of `std::stoul`. -/
  | invalid_argument
  /-- The `std::out_of_range` of `std::stoul`. -/
  | out_of_range
  /-- A `std::runtime_error` with its message. -/
  | runtime_error (what : String)
  deriving DecidableEq, Repr

/-- Modelled from the spec: `pair_time_sampling_t` of `nvml_types.hpp`, which is not among the
sources; a Metric Source returns pairs `(timestamp_microseconds_epoch, value)`. -/
abbrev pair_time_sampling_t := Nat × Nat

/-- Modelled from the spec: `system_time_point_t` of `nvml_types.hpp`, which is not among the
sources; a wall-clock instant, counted here in microseconds since the epoch. -/
abbrev system_time_point_t := Nat

/-- Modelled from the spec: `pair_chrono_value_t` of `nvml_types.hpp`, which is not among the
sources; a Sample is a wall-clock instant with a 64-bit unsigned value. -/
abbrev pair_chrono_value_t := system_time_point_t × Nat

/-- The Metric Source as the code sees it: `metric->get_value(device, last_seen)` returns a
vector of samples or throws. -/
abbrev Source := Sampling_Metric → nvmlDevice_t → Nat → Except Thrown (List pair_time_sampling_t)

/-- Two to the sixty-four, the modulus of `std::uint64_t`. -/
def UINT64_MOD : Nat := 2 ^ 64

/-! ## `nvml_measurement_thread.hpp` -/

namespace MeasurementThread

/-- Modelled from the spec: the handle type `nvml_t` of `nvml_types.hpp`, which is not among the
sources. It has the two members the sampling loop reads (`device`, `metric`) and the
human-readable name of the data model. -/
structure nvml_t where
  name : String
  device : nvmlDevice_t
  metric : Sampling_Metric
  deriving DecidableEq, Repr

/-- Modelled from the spec: `std::equal_to<nvml_t>` of `nvml_types.hpp`, which is not among the
sources; two handles are the same entity iff they refer to the same (device, source) pair. -/
def equal_to (a b : nvml_t) : Bool :=
  a.device == b.device && a.metric == b.metric

/-- The member `measurements`: the entries of the `std::unordered_map`, in iteration order. -/
abbrev Store := List (nvml_t × List pair_chrono_value_t)

/-- Lookup as `std::unordered_map::find` does it: the entry whose key is equal to `handle`. -/
def find (m : Store) (handle : nvml_t) : Option (List pair_chrono_value_t) :=
  match m with
  | [] => none
  | (k, series) :: rest => if equal_to k handle then some series else find rest handle

/-- The call `measurements.insert(std::make_pair(key, series))`: nothing happens when an equal
key is present, otherwise the entry is added (here at the end of the iteration order). -/
def insert (m : Store) (key : nvml_t) (series : List pair_chrono_value_t) : Store :=
  match find m key with
  | some _ => m
  | none => m ++ [(key, series)]

/-- The class `nvml_measurement_thread`, without its mutex. -/
structure nvml_measurement_thread where
  interval : Nat
  stop : Bool
  last : system_time_point_t
  measurements : Store

/-- The constructor: `stop` starts as `true`, `last` is the clock reading `now`, the store is
empty. -/
def nvml_measurement_thread.new (interval_ : Nat) (now : system_time_point_t) :
    nvml_measurement_thread :=
  { interval := interval_, stop := true, last := now, measurements := [] }

/-- The method `add_handles`: one `insert` of an empty series per handle, in order. -/
def add_handles (s : nvml_measurement_thread) (handles : List nvml_t) :
    nvml_measurement_thread :=
  { s with measurements := handles.foldl (fun m handle => insert m handle []) s.measurements }

/-- The method `get_readings`: `return measurements[handle]`. The index operator of
`std::unordered_map` default-constructs an entry when the key is absent. -/
def get_readings (s : nvml_measurement_thread) (handle : nvml_t) :
    List pair_chrono_value_t × nvml_measurement_thread :=
  match find s.measurements handle with
  | some series => (series, s)
  | none => ([], { s with measurements := s.measurements ++ [(handle, [])] })

/-- One stored sample: `system_time_point_t() + std::chrono::microseconds(pair_it.first)` with
`(std::uint64_t)pair_it.second`. -/
def stored (pair_it : pair_time_sampling_t) : pair_chrono_value_t :=
  (0 + pair_it.1, pair_it.2 % UINT64_MOD)

/-- The inner `for` loop over `sampling_values`: one `push_back` per returned pair. -/
def push_all (series : List pair_chrono_value_t) (sampling_values : List pair_time_sampling_t) :
    List pair_chrono_value_t :=
  series ++ sampling_values.map stored

/-- The outer `for` loop over `measurements` (lines 48-61): entries are visited in iteration
order; the first `get_value` that throws ends the loop, leaving that entry and the later ones
as they were. -/
def poll_entries (get_value : Source) (unix_microseconds : Nat) :
    Store → Store × Option Thrown
  | [] => ([], none)
  | (handle, series) :: rest =>
    match get_value handle.metric handle.device unix_microseconds with
    | .error e => ((handle, series) :: rest, some e)
    | .ok sampling_values =>
      let r := poll_entries get_value unix_microseconds rest
      ((handle, push_all series sampling_values) :: r.1, r.2)

/-- How one iteration of the `while` body ends. -/
inductive CycleEnd where
  /-- The `try` block ran to its end. -/
  | completed
  /-- A `scorep::exception::null_pointer` was caught and the warning logged. -/
  | warned
  /-- Another exception left `measurement_sampling`. -/
  | escaped (e : Thrown)
  deriving DecidableEq, Repr

/-- One iteration of the `while` body (lines 43-67): the `try` block, the `catch` of
`null_pointer`, then `last = system_clock_t::now()` with the clock reading `now`. An exception
other than `null_pointer` is not caught: the appends made so far stay, `last` is not set. -/
def loop_body (s : nvml_measurement_thread) (get_value : Source) (now : system_time_point_t) :
    nvml_measurement_thread × CycleEnd :=
  let unix_microseconds := s.last % UINT64_MOD
  match poll_entries get_value unix_microseconds s.measurements with
  | (m, none) => ({ s with measurements := m, last := now }, .completed)
  | (m, some .null_pointer) => ({ s with measurements := m, last := now }, .warned)
  | (m, some e) => ({ s with measurements := m }, .escaped e)

/-- The method `stop_measurement`. -/
def stop_measurement (s : nvml_measurement_thread) : nvml_measurement_thread :=
  { s with stop := true }

/-- What the surroundings contribute to one loop iteration: the Metric Sources' answers, the
clock reading taken after the cycle, and whether another thread called `stop_measurement`
before the loop condition is checked again. -/
structure CycleEnv where
  get_value : Source
  now : system_time_point_t
  stop_called : Bool

/-- Where `measurement_sampling` stands at the end of a trace. -/
inductive LoopStatus where
  /-- The loop is still iterating. -/
  | running
  /-- The loop saw `stop` and the method returned. -/
  | returned
  /-- An exception left the method. -/
  | escaped (e : Thrown)
  deriving DecidableEq, Repr

/-- The loop `while (!stop) { ... }` run against the iterations the surroundings provide. -/
def sampling_loop (s : nvml_measurement_thread) :
    List CycleEnv → nvml_measurement_thread × LoopStatus
  | [] => (s, if s.stop then .returned else .running)
  | c :: cs =>
    if s.stop then (s, .returned)
    else
      match loop_body s c.get_value c.now with
      | (s1, .escaped e) => (s1, .escaped e)
      | (s1, _) => sampling_loop (if c.stop_called then stop_measurement s1 else s1) cs

/-- The method `measurement_sampling`: `stop = false`, then the loop. -/
def measurement_sampling (s : nvml_measurement_thread) (cycles : List CycleEnv) :
    nvml_measurement_thread × LoopStatus :=
  sampling_loop { s with stop := false } cycles

/-- The operations of the engine, each atomic with respect to the store. -/
inductive Op where
  | add_handles (handles : List nvml_t)
  | get_readings (handle : nvml_t)
  | poll (get_value : Source) (now : system_time_point_t)
  | stop_measurement

/-- The engine after one operation; `poll` is one iteration of the loop body. -/
def Op.apply (s : nvml_measurement_thread) : Op → nvml_measurement_thread
  | .add_handles handles => MeasurementThread.add_handles s handles
  | .get_readings handle => (MeasurementThread.get_readings s handle).2
  | .poll get_value now => (loop_body s get_value now).1
  | .stop_measurement => MeasurementThread.stop_measurement s

/-- The engine after a sequence of operations. -/
def run (s : nvml_measurement_thread) (ops : List Op) : nvml_measurement_thread :=
  ops.foldl Op.apply s

/-- Whether an operation is one of those that may run once the loop has stopped: a read or
another `stop_measurement`. -/
def Op.quiet : Op → Bool
  | .get_readings _ => true
  | .stop_measurement => true
  | _ => false

/-- What the source of `handle` hands to the loop when queried with `last_seen`: the returned
list, or nothing when the call throws. -/
def returned (get_value : Source) (handle : nvml_t) (last_seen : Nat) :
    List pair_time_sampling_t :=
  match get_value handle.metric handle.device last_seen with
  | .ok sampling_values => sampling_values
  | .error _ => []

/-- Loop iterations during which no other thread calls `stop_measurement`. -/
def uninterrupted (cycles : List (Source × system_time_point_t)) : List CycleEnv :=
  cycles.map (fun c => { get_value := c.1, now := c.2, stop_called := false })

/-- The lists the source of `handle` returns in successive cycles, the first of which starts
with the member `last` equal to the given instant. -/
def answers (handle : nvml_t) :
    system_time_point_t → List (Source × system_time_point_t) → List (List pair_time_sampling_t)
  | _, [] => []
  | last, c :: rest => returned c.1 handle (last % UINT64_MOD) :: answers handle c.2 rest

/-- Whether in every cycle every handle of the list got a list back from its source. -/
def all_returned (handles : List nvml_t) :
    system_time_point_t → List (Source × system_time_point_t) → Bool
  | _, [] => true
  | last, c :: rest =>
    handles.all (fun g =>
      match c.1 g.metric g.device (last % UINT64_MOD) with
      | .ok _ => true
      | .error _ => false)
    && all_returned handles c.2 rest

/-- Timestamps in non-decreasing order: for positions `i < j`, the `i`-th is at most the `j`-th. -/
def non_decreasing (timestamps : List Nat) : Prop :=
  timestamps.Pairwise (fun a b => a ≤ b)

instance (timestamps : List Nat) : Decidable (non_decreasing timestamps) := by
  unfold non_decreasing
  infer_instance

/-- Whether the sources answer one poll in order: every returned list has non-decreasing
timestamps, none of them earlier than a timestamp already stored for that handle. -/
def orderly_poll (s : nvml_measurement_thread) (get_value : Source) : Bool :=
  s.measurements.all (fun entry =>
    match get_value entry.1.metric entry.1.device (s.last % UINT64_MOD) with
    | .ok sampling_values =>
      decide (non_decreasing (sampling_values.map Prod.fst)) &&
      entry.2.all (fun old => sampling_values.all (fun new => decide (old.1 ≤ new.1)))
    | .error _ => true)

/-- Whether the sources answer every poll of a sequence of operations in order. -/
def orderly : nvml_measurement_thread → List Op → Bool
  | _, [] => true
  | s, op :: rest =>
    (match op with
     | .poll get_value _ => orderly_poll s get_value
     | _ => true)
    && orderly (op.apply s) rest

/-- Scenario handle A: device 0, metric 1. -/
def handle_A : nvml_t := { name := "A", device := 0, metric := 1 }

/-- Scenario handle B: device 1, metric 1. -/
def handle_B : nvml_t := { name := "B", device := 1, metric := 1 }

/-- A source that throws `e` for device 0 and returns one new sample, one microsecond after
`last_seen`, for every other device. -/
def source_failing_on_A (e : Thrown) : Source :=
  fun _ device last_seen => if device = 0 then .error e else .ok [(last_seen + 1, 5)]

/-- Three loop iterations against `source_failing_on_A e`, with clock readings 10, 20, 30 and no
call of `stop_measurement`. -/
def three_cycles (e : Thrown) : List CycleEnv :=
  uninterrupted [(source_failing_on_A e, 10), (source_failing_on_A e, 20),
    (source_failing_on_A e, 30)]

/-- A source that returns two samples newer than `last_seen`, the later one first. -/
def source_out_of_order : Source :=
  fun _ _ last_seen => .ok [(last_seen + 2, 7), (last_seen + 1, 7)]

/-- A source that returns the sample (100000, 5) once, to a query with an earlier `last_seen`,
and the empty list afterwards. -/
def source_one_sample : Source :=
  fun _ _ last_seen => if last_seen < 100000 then .ok [(100000, 5)] else .ok []

/-- The engine with B registered before A, and the loop entered (`stop` is `false`). -/
def engine_B_then_A : nvml_measurement_thread :=
  { add_handles (nvml_measurement_thread.new 10 0) [handle_B, handle_A] with stop := false }

/-- The engine with A registered after one poll of `source_one_sample`: A holds one sample. -/
def engine_one_sample : nvml_measurement_thread :=
  run (nvml_measurement_thread.new 10 0)
    [.add_handles [handle_A], .poll source_one_sample 100000]

end MeasurementThread

/-! ## `nvml_sampling_plugin.hpp` -/

namespace SamplingPlugin

/-- The handle type `nvml_t` of the plugin header (lines 18-30). -/
structure nvml_t where
  name : String
  device_id : Nat
  metric : Sampling_Metric
  deriving DecidableEq, Repr

/-- The enumeration `metric_datatype` of `nvml_wrapper.hpp` as the `switch` of
`get_metric_properties` sees it: the three enumerators it names, and `unlisted` for a value that
reaches `default:`. -/
inductive metric_datatype where
  | UINT
  | INT
  | DOUBLE
  | unlisted
  deriving DecidableEq, Repr

/-- The enumeration `metric_measure_type` of `nvml_wrapper.hpp` as the `switch` sees it: the
three enumerators it names, and `unlisted` for a value that reaches `default:`. -/
inductive metric_measure_type where
  | ABS
  | REL
  | ACCU
  | unlisted
  deriving DecidableEq, Repr

/-- What `get_metric_properties` reads through the pointer `metric_type`: the pointer itself and
the results of `getDesc`, `getUnit`, `getDatatype` and `getMeasureType`. -/
structure Nvml_Sampling_Metric where
  address : Sampling_Metric
  getDesc : String
  getUnit : String
  getDatatype : metric_datatype
  getMeasureType : metric_measure_type
  deriving DecidableEq, Repr

/-- The value type a property declares (`value_uint`, `value_int`, `value_double`). -/
inductive value_type where
  | uint
  | int
  | double
  deriving DecidableEq, Repr

/-- The mode a property declares (`absolute_point`, `relative_point`, `accumulated_point`). -/
inductive point_mode where
  | absolute_point
  | relative_point
  | accumulated_point
  deriving DecidableEq, Repr

/-- The part of `scorep::plugin::metric_property` this code sets. -/
structure metric_property where
  name : String
  description : String
  unit : String
  type : value_type
  mode : point_mode
  deriving DecidableEq, Repr

/-- The class `nvml_sampling_plugin`: its device list, the two tick stamps, and the handles made
so far by `make_handle`, each under the name it was made with. The member `convert` is the
argument `to_ticks` of `get_all_values`. -/
structure nvml_sampling_plugin where
  nvml_devices : List nvmlDevice_t
  begin : Nat
  end_ : Nat
  handles : List (String × nvml_t)
  deriving DecidableEq, Repr

/-- The call `std::to_string(i)` for an unsigned `i`: its decimal digits. -/
def to_string (i : Nat) : String :=
  Nat.repr i

/-- The call `make_handle(name, handle)` of the plugin base class, recorded in call order. -/
def make_handle (p : nvml_sampling_plugin) (name : String) (handle : nvml_t) :
    nvml_sampling_plugin :=
  { p with handles := p.handles ++ [(name, handle)] }

/-- The constructor `metric_property(name, description, unit)`. The value type and the mode it
starts with are placeholders: both `switch` statements overwrite them before the property is
pushed back. -/
def metric_property.new (name description unit : String) : metric_property :=
  { name := name, description := description, unit := unit, type := .double,
    mode := .absolute_point }

/-- The first `switch` (lines 78-91), applied to the property under construction. -/
def set_datatype (metric_name : String) (property : metric_property) :
    metric_datatype → Except Thrown metric_property
  | .UINT => .ok { property with type := .uint }
  | .INT => .ok { property with type := .int }
  | .DOUBLE => .ok { property with type := .double }
  | .unlisted => .error (.runtime_error ("Unknown datatype for metric " ++ metric_name))

/-- The second `switch` (lines 93-106), applied to the property under construction. -/
def set_measure_type (metric_name : String) (property : metric_property) :
    metric_measure_type → Except Thrown metric_property
  | .ABS => .ok { property with mode := .absolute_point }
  | .REL => .ok { property with mode := .relative_point }
  | .ACCU => .ok { property with mode := .accumulated_point }
  | .unlisted => .error (.runtime_error ("Unknown measure type for metric " ++ metric_name))

/-- The body of the `for` loop of `get_metric_properties` for device index `i` (lines 72-108):
the handle is made first, then the property is built; either `switch` may throw. -/
def device_step (metric_name : String) (metric_type : Nvml_Sampling_Metric) (i : Nat)
    (p : nvml_sampling_plugin) : nvml_sampling_plugin × Except Thrown metric_property :=
  let new_name := metric_name ++ " on CUDA: " ++ to_string i
  let p1 := make_handle p new_name { name := metric_name, device_id := i,
                                     metric := metric_type.address }
  let property := metric_property.new new_name metric_type.getDesc metric_type.getUnit
  match set_datatype metric_name property metric_type.getDatatype with
  | .error e => (p1, .error e)
  | .ok property1 =>
    match set_measure_type metric_name property1 metric_type.getMeasureType with
    | .error e => (p1, .error e)
    | .ok property2 => (p1, .ok property2)

/-- The `for` loop of `get_metric_properties` over the device indices still to visit. -/
def device_loop (metric_name : String) (metric_type : Nvml_Sampling_Metric) :
    List Nat → nvml_sampling_plugin → List metric_property →
    nvml_sampling_plugin × Except Thrown (List metric_property)
  | [], p, properties => (p, .ok properties)
  | i :: rest, p, properties =>
    match device_step metric_name metric_type i p with
    | (p1, .error e) => (p1, .error e)
    | (p1, .ok property) => device_loop metric_name metric_type rest p1 (properties ++ [property])

/-- The method `get_metric_properties`. The function `metric_name_2_nvml_sampling_function` of
`nvml_wrapper.hpp` is an argument: it yields the metric of a recognised name. The index `i` runs
over `0 .. nvml_devices.size() - 1`; the device list comes from `get_visible_devices`, whose
`unsigned` counter keeps its size below `2 ^ 32`, so the index does not wrap. -/
def get_metric_properties (p : nvml_sampling_plugin)
    (metric_name_2_nvml_sampling_function : String → Except Thrown Nvml_Sampling_Metric)
    (metric_name : String) : nvml_sampling_plugin × Except Thrown (List metric_property) :=
  match metric_name_2_nvml_sampling_function metric_name with
  | .error e => (p, .error e)
  | .ok metric_type =>
    device_loop metric_name metric_type (List.range p.nvml_devices.length) p []

/-- The largest `unsigned long` (64 bits wide where `CLOCKS_PER_SEC` is one million). -/
def ULONG_MAX : Nat := 2 ^ 64 - 1

/-- The macro `CLOCKS_PER_SEC` of `<ctime>`, one million on POSIX systems. -/
def CLOCKS_PER_SEC : Nat := 1000000

/-- The white space `strtoul` skips in the C locale. -/
def isspace (c : Char) : Bool :=
  c == ' ' || (9 ≤ c.toNat && c.toNat ≤ 13)

/-- The value of a decimal digit character. -/
def digit_value (c : Char) : Option Nat :=
  if 48 ≤ c.toNat ∧ c.toNat ≤ 57 then some (c.toNat - 48) else none

/-- The longest run of decimal digits at the start of the text, as digit values. -/
def leading_digits : List Char → List Nat
  | [] => []
  | c :: rest =>
    match digit_value c with
    | some d => d :: leading_digits rest
    | none => []

/-- The number a run of decimal digits denotes, most significant digit first. -/
def decimal_value (ds : List Nat) : Nat :=
  ds.foldl (fun acc d => acc * 10 + d) 0

/-- The sign `strtoul` accepts before the digits: whether it is a minus, and the rest. -/
def split_sign : List Char → Bool × List Char
  | '-' :: rest => (true, rest)
  | '+' :: rest => (false, rest)
  | cs => (false, cs)

/-- The library call `std::stoul(str)` with base ten and no position argument, after the C++
standard: leading white space is skipped, one sign is accepted, the longest run of digits is
converted and whatever follows is ignored; no digit throws `std::invalid_argument`, a number
above `ULONG_MAX` throws `std::out_of_range`, and a minus sign negates in `unsigned long`. -/
def stoul (str : String) : Except Thrown Nat :=
  let signed := split_sign (str.toList.dropWhile isspace)
  let ds := leading_digits signed.2
  if ds = [] then .error .invalid_argument
  else if ULONG_MAX < decimal_value ds then .error .out_of_range
  else .ok (if signed.1 then (ULONG_MAX + 1 - decimal_value ds) % (ULONG_MAX + 1)
            else decimal_value ds)

/-- The method `get_metric_gather_interval`; `INTERVAL` is the environment variable, `none`
when it is unset, in which case `scorep::environment_variable::get` yields the default. -/
def get_metric_gather_interval (INTERVAL : Option String) : Except Thrown Nat :=
  match stoul (INTERVAL.getD "5") with
  | .error e => .error e
  | .ok interval => .ok (interval / CLOCKS_PER_SEC)

/-- The method `get_all_values`. The cursor is the list of pairs written to it; `to_ticks` is
`convert.to_ticks`. The result is `none` when `nvml_devices[handle.device_id]` indexes past the
end of the vector (undefined behaviour), otherwise the exception of `get_value` or the cursor
after the writes. -/
def get_all_values (p : nvml_sampling_plugin) (to_ticks : Nat → Nat) (get_value : Source)
    (handle : nvml_t) (cursor : List (Nat × Nat)) : Option (Except Thrown (List (Nat × Nat))) :=
  let last_seen := p.begin % UINT64_MOD
  match p.nvml_devices.get? handle.device_id with
  | none => none
  | some device =>
    match get_value handle.metric device last_seen with
    | .error e => some (.error e)
    | .ok data => some (.ok (cursor ++ data.map (fun pair => (to_ticks pair.1, pair.2))))

/-- A well-formed interval text: entirely a non-negative decimal integer that fits
`unsigned long`. -/
def well_formed (str : String) : Bool :=
  !str.toList.isEmpty && str.toList.all (fun c => (digit_value c).isSome) &&
  decide (decimal_value (str.toList.filterMap digit_value) ≤ ULONG_MAX)

/-- A text that is empty or whose first character is neither white space, a sign nor a decimal
digit. -/
def starts_without_number (str : String) : Bool :=
  match str.toList with
  | [] => true
  | c :: _ => !isspace c && c != '-' && c != '+' && (digit_value c).isNone

/-- The name `get_metric_properties` gives to the handle and the property of device index `i`. -/
def new_name (metric_name : String) (i : Nat) : String :=
  metric_name ++ " on CUDA: " ++ to_string i

/-- Scenario plugin: one visible device with handle 7, measurement begun at tick 0. -/
def plugin_one_device : nvml_sampling_plugin :=
  { nvml_devices := [7], begin := 0, end_ := 0, handles := [] }

/-- Scenario handle of the plugin: metric 1 on device index 0. -/
def handle_power : nvml_t := { name := "power", device_id := 0, metric := 1 }

/-- The same (device, source) pair as a handle of the sampling engine: metric 1 on the device
with handle 7. -/
def engine_handle_power : MeasurementThread.nvml_t :=
  { name := "power", device := 7, metric := 1 }

/-- A source holding the two samples (100000, 5) and (200000, 6), which returns those newer
than `last_seen`. -/
def buffered_source : Source :=
  fun _ _ last_seen =>
    .ok ([(100000, 5), (200000, 6)].filter (fun pair => decide (last_seen < pair.1)))

/-- The engine constructed at instant 150000 with the scenario handle registered, after one
poll of `buffered_source`. -/
def engine_after_one_poll : MeasurementThread.nvml_measurement_thread :=
  MeasurementThread.run (MeasurementThread.nvml_measurement_thread.new 10 150000)
    [.add_handles [engine_handle_power], .poll buffered_source 250000]

/-- A recognised metric whose datatype is none of the three the `switch` lists. -/
def metric_of_unlisted_datatype : Nvml_Sampling_Metric :=
  { address := 1, getDesc := "power usage", getUnit := "mW", getDatatype := .unlisted,
    getMeasureType := .ABS }

/-- A recognised metric with a listed datatype and measure type. -/
def metric_power : Nvml_Sampling_Metric :=
  { address := 1, getDesc := "power usage", getUnit := "mW", getDatatype := .UINT,
    getMeasureType := .ABS }

/-- Scenario plugin with two visible devices. -/
def plugin_two_devices : nvml_sampling_plugin :=
  { nvml_devices := [7, 9], begin := 0, end_ := 0, handles := [] }

end SamplingPlugin

/-! ## Statements and proofs -/

namespace MeasurementThread

theorem equal_to_refl (a : nvml_t) : equal_to a a = true := by
  simp [equal_to]

theorem equal_to_fields {a b : nvml_t} (h : equal_to a b = true) :
    a.device = b.device ∧ a.metric = b.metric := by
  simpa [equal_to] using h

theorem find_append_some {m : Store} {handle : nvml_t} {series : List pair_chrono_value_t}
    (extra : Store) (h : find m handle = some series) :
    find (m ++ extra) handle = some series := by
  induction m with
  | nil => simp [find] at h
  | cons entry rest ih =>
    obtain ⟨k, v⟩ := entry
    by_cases hk : equal_to k handle = true
    · simpa [find, hk] using h
    · simp only [find, hk, List.cons_append] at h ⊢
      exact ih h

theorem find_append_none {m : Store} {handle : nvml_t} (extra : Store)
    (h : find m handle = none) : find (m ++ extra) handle = find extra handle := by
  induction m with
  | nil => rfl
  | cons entry rest ih =>
    obtain ⟨k, v⟩ := entry
    by_cases hk : equal_to k handle = true
    · simp [find, hk] at h
    · simp only [find, hk, List.cons_append] at h ⊢
      exact ih h

theorem find_insert_some {m : Store} {handle : nvml_t} {series : List pair_chrono_value_t}
    (key : nvml_t) (v : List pair_chrono_value_t) (h : find m handle = some series) :
    find (insert m key v) handle = some series := by
  unfold insert
  cases find m key with
  | some _ => exact h
  | none => exact find_append_some _ h

theorem find_add_handles {handle : nvml_t} {series : List pair_chrono_value_t}
    (handles : List nvml_t) :
    ∀ {m : Store}, find m handle = some series →
      find (handles.foldl (fun m handle => insert m handle []) m) handle = some series := by
  induction handles with
  | nil => intro m h; exact h
  | cons k rest ih => intro m h; exact ih (find_insert_some k [] h)

theorem find_get_readings {s : nvml_measurement_thread} {handle : nvml_t}
    {series : List pair_chrono_value_t} (other : nvml_t)
    (h : find s.measurements handle = some series) :
    find (get_readings s other).2.measurements handle = some series := by
  unfold get_readings
  cases find s.measurements other with
  | some _ => exact h
  | none => exact find_append_some _ h

theorem find_after_get_readings (s : nvml_measurement_thread) (handle : nvml_t) :
    find (get_readings s handle).2.measurements handle = some (get_readings s handle).1 := by
  unfold get_readings
  cases hf : find s.measurements handle with
  | some series => exact hf
  | none =>
    show find (s.measurements ++ [(handle, [])]) handle = some []
    rw [find_append_none _ hf]
    simp [find, equal_to_refl]

theorem get_readings_of_find {s : nvml_measurement_thread} {handle : nvml_t}
    {series : List pair_chrono_value_t} (h : find s.measurements handle = some series) :
    get_readings s handle = (series, s) := by
  simp [get_readings, h]

theorem poll_entries_find (get_value : Source) (t : Nat) {handle : nvml_t} :
    ∀ {m : Store} {series : List pair_chrono_value_t}, find m handle = some series →
      ∃ later, find (poll_entries get_value t m).1 handle = some later ∧ series <+: later := by
  intro m
  induction m with
  | nil => intro series h; simp [find] at h
  | cons entry rest ih =>
    intro series h
    obtain ⟨k, v⟩ := entry
    cases hq : get_value k.metric k.device t with
    | error e =>
      refine ⟨series, ?_, List.prefix_refl _⟩
      simpa [poll_entries, hq] using h
    | ok sampling_values =>
      by_cases hk : equal_to k handle = true
      · simp only [find, hk, if_true, Option.some.injEq] at h
        subst h
        refine ⟨push_all v sampling_values, ?_, ?_⟩
        · simp [poll_entries, hq, find, hk]
        · exact List.prefix_append _ _
      · simp only [find, hk] at h
        obtain ⟨later, h1, h2⟩ := ih h
        refine ⟨later, ?_, h2⟩
        simpa [poll_entries, hq, find, hk] using h1

theorem loop_body_measurements (s : nvml_measurement_thread) (get_value : Source)
    (now : system_time_point_t) :
    (loop_body s get_value now).1.measurements
      = (poll_entries get_value (s.last % UINT64_MOD) s.measurements).1 := by
  unfold loop_body
  dsimp only
  generalize poll_entries get_value (s.last % UINT64_MOD) s.measurements = r
  obtain ⟨m, o⟩ := r
  cases o with
  | none => rfl
  | some e => cases e <;> rfl

theorem quiet_find {s : nvml_measurement_thread} {handle : nvml_t}
    {series : List pair_chrono_value_t} (op : Op) (hq : op.quiet = true)
    (h : find s.measurements handle = some series) :
    find (op.apply s).measurements handle = some series := by
  cases op with
  | add_handles handles => simp [Op.quiet] at hq
  | poll get_value now => simp [Op.quiet] at hq
  | get_readings other => exact find_get_readings other h
  | stop_measurement => exact h

theorem quiet_run_find {handle : nvml_t} {series : List pair_chrono_value_t} (ops : List Op) :
    ∀ {s : nvml_measurement_thread}, (∀ op ∈ ops, op.quiet = true) →
      find s.measurements handle = some series →
      find (run s ops).measurements handle = some series := by
  induction ops with
  | nil => intro s _ h; exact h
  | cons op rest ih =>
    intro s hq h
    have h1 := quiet_find op (hq op (List.mem_cons_self _ _)) h
    exact ih (fun o ho => hq o (List.mem_cons_of_mem _ ho)) h1

/-- C5. Every operation of the engine is append-only on the sample store: a handle that is a key
before `add_handles`, one poll cycle, `get_readings` or `stop_measurement` is a key afterwards,
and its series before is a prefix of its series after. -/
theorem operations_append_only (s : nvml_measurement_thread) (op : Op) (handle : nvml_t)
    (series : List pair_chrono_value_t) (h : find s.measurements handle = some series) :
    ∃ later, find (op.apply s).measurements handle = some later ∧ series <+: later := by
  cases op with
  | add_handles handles => exact ⟨series, find_add_handles handles h, List.prefix_refl _⟩
  | get_readings other => exact ⟨series, find_get_readings other h, List.prefix_refl _⟩
  | poll get_value now =>
    show ∃ later, find (loop_body s get_value now).1.measurements handle = some later ∧ _
    rw [loop_body_measurements]
    exact poll_entries_find get_value _ h
  | stop_measurement => exact ⟨series, h, List.prefix_refl _⟩

/-- C6. After a first `get_readings(handle)`, any sequence of further reads (of any handle) and
`stop_measurement` calls leaves the answer for `handle` as the first call gave it, and a
repeated read does not change the engine. -/
theorem readings_idempotent_once_stopped (s : nvml_measurement_thread) (handle : nvml_t)
    (ops : List Op) (hq : ∀ op ∈ ops, op.quiet = true) :
    (get_readings (run (get_readings s handle).2 ops) handle).1 = (get_readings s handle).1 ∧
    (get_readings (run (get_readings s handle).2 ops) handle).2
      = run (get_readings s handle).2 ops := by
  have h := quiet_run_find ops hq (find_after_get_readings s handle)
  rw [get_readings_of_find h]
  exact ⟨rfl, rfl⟩

/-- C1. The engine with only handle A registered, read for the unregistered handle B: the read
returns the empty series, and the store has grown from one entry to two, B now being a key. -/
theorem get_readings_inserts_unregistered :
    find (add_handles (nvml_measurement_thread.new 10 0) [handle_A]).measurements handle_B = none ∧
    (get_readings (add_handles (nvml_measurement_thread.new 10 0) [handle_A]) handle_B).1 = [] ∧
    (add_handles (nvml_measurement_thread.new 10 0) [handle_A]).measurements.length = 1 ∧
    (get_readings (add_handles (nvml_measurement_thread.new 10 0)
      [handle_A]) handle_B).2.measurements.length = 2 ∧
    find (get_readings (add_handles (nvml_measurement_thread.new 10 0)
      [handle_A]) handle_B).2.measurements handle_B = some [] := by
  decide

theorem poll_entries_cons_ok {get_value : Source} {t : Nat} {k : nvml_t}
    {L : List pair_time_sampling_t} (v : List pair_chrono_value_t) (rest : Store)
    (h : get_value k.metric k.device t = .ok L) :
    poll_entries get_value t ((k, v) :: rest)
      = ((k, push_all v L) :: (poll_entries get_value t rest).1,
         (poll_entries get_value t rest).2) := by
  simp [poll_entries, h]

theorem poll_entries_cons_error {get_value : Source} {t : Nat} {k : nvml_t} {e : Thrown}
    (v : List pair_chrono_value_t) (rest : Store)
    (h : get_value k.metric k.device t = .error e) :
    poll_entries get_value t ((k, v) :: rest) = ((k, v) :: rest, some e) := by
  simp [poll_entries, h]

theorem returned_ok {get_value : Source} {t : Nat} {k : nvml_t}
    {L : List pair_time_sampling_t} (h : get_value k.metric k.device t = .ok L) :
    returned get_value k t = L := by
  simp [returned, h]

theorem poll_entries_stops_at_failure (get_value : Source) (t : Nat) (handle : nvml_t)
    (series : List pair_chrono_value_t) (after : Store) (e : Thrown)
    (hfail : get_value handle.metric handle.device t = .error e) :
    ∀ (before : Store),
      (∀ entry ∈ before, ∃ L, get_value entry.1.metric entry.1.device t = .ok L) →
      poll_entries get_value t (before ++ (handle, series) :: after)
        = (before.map (fun entry => (entry.1, push_all entry.2 (returned get_value entry.1 t)))
            ++ (handle, series) :: after, some e) := by
  intro before
  induction before with
  | nil => intro _; simpa using poll_entries_cons_error series after hfail
  | cons entry rest ih =>
    intro hb
    obtain ⟨k, v⟩ := entry
    obtain ⟨L, hL⟩ := hb (k, v) (List.mem_cons_self _ _)
    have ih1 := ih (fun x hx => hb x (List.mem_cons_of_mem _ hx))
    rw [List.cons_append, poll_entries_cons_ok v _ hL, ih1, List.map_cons, returned_ok hL]
    rfl

theorem poll_entries_all_ok (get_value : Source) (t : Nat) :
    ∀ (m : Store), (∀ entry ∈ m, ∃ L, get_value entry.1.metric entry.1.device t = .ok L) →
      poll_entries get_value t m
        = (m.map (fun entry => (entry.1, push_all entry.2 (returned get_value entry.1 t))),
           none) := by
  intro m
  induction m with
  | nil => intro _; rfl
  | cons entry rest ih =>
    intro hm
    obtain ⟨k, v⟩ := entry
    obtain ⟨L, hL⟩ := hm (k, v) (List.mem_cons_self _ _)
    have ih1 := ih (fun x hx => hm x (List.mem_cons_of_mem _ hx))
    rw [poll_entries_cons_ok v _ hL, ih1, List.map_cons, returned_ok hL]

theorem returned_congr (get_value : Source) (t : Nat) {k handle : nvml_t}
    (h : equal_to k handle = true) : returned get_value k t = returned get_value handle t := by
  obtain ⟨hd, hm⟩ := equal_to_fields h
  simp [returned, hd, hm]

theorem find_polled (get_value : Source) (t : Nat) (handle : nvml_t) :
    ∀ (m : Store),
      find (m.map (fun entry => (entry.1, push_all entry.2 (returned get_value entry.1 t))))
          handle
        = (find m handle).map (fun series => push_all series (returned get_value handle t)) := by
  intro m
  induction m with
  | nil => rfl
  | cons entry rest ih =>
    obtain ⟨k, v⟩ := entry
    by_cases hk : equal_to k handle = true
    · simp [find, hk, returned_congr get_value t hk]
    · simpa [find, hk] using ih

theorem insert_keys (m : Store) (key : nvml_t) (v : List pair_chrono_value_t) :
    ∀ entry ∈ insert m key v, entry ∈ m ∨ entry = (key, v) := by
  intro entry he
  unfold insert at he
  cases hf : find m key with
  | some _ => rw [hf] at he; exact Or.inl he
  | none =>
    rw [hf] at he
    rcases List.mem_append.mp he with h | h
    · exact Or.inl h
    · exact Or.inr (by simpa using h)

theorem add_handles_keys (handles : List nvml_t) :
    ∀ (m : Store), ∀ entry ∈ handles.foldl (fun m handle => insert m handle []) m,
      entry ∈ m ∨ (entry.1 ∈ handles ∧ entry.2 = []) := by
  induction handles with
  | nil => intro m entry he; exact Or.inl he
  | cons k rest ih =>
    intro m entry he
    rcases ih (insert m k []) entry he with h | ⟨h1, h2⟩
    · rcases insert_keys m k [] entry h with h | h
      · exact Or.inl h
      · subst h
        exact Or.inr ⟨List.mem_cons_self _ _, rfl⟩
    · exact Or.inr ⟨List.mem_cons_of_mem _ h1, h2⟩

theorem find_mem {m : Store} {handle : nvml_t} {series : List pair_chrono_value_t}
    (h : find m handle = some series) : ∃ k, (k, series) ∈ m := by
  induction m with
  | nil => simp [find] at h
  | cons entry rest ih =>
    obtain ⟨k, v⟩ := entry
    by_cases hk : equal_to k handle = true
    · simp only [find, hk, if_true, Option.some.injEq] at h
      subst h
      exact ⟨k, List.mem_cons_self _ _⟩
    · simp only [find, hk] at h
      obtain ⟨k1, h1⟩ := ih h
      exact ⟨k1, List.mem_cons_of_mem _ h1⟩

theorem find_insert_self (m : Store) (key : nvml_t) (v : List pair_chrono_value_t) :
    ∃ series, find (insert m key v) key = some series := by
  unfold insert
  cases hf : find m key with
  | some series => exact ⟨series, hf⟩
  | none =>
    refine ⟨v, ?_⟩
    show find (m ++ [(key, v)]) key = some v
    rw [find_append_none _ hf]
    simp [find, equal_to_refl]

theorem find_registered {handle : nvml_t} (handles : List nvml_t) (hmem : handle ∈ handles) :
    ∀ (m : Store),
      ∃ series, find (handles.foldl (fun m handle => insert m handle []) m) handle
        = some series := by
  induction handles with
  | nil => simp at hmem
  | cons k rest ih =>
    intro m
    rcases List.mem_cons.mp hmem with h | h
    · subst h
      obtain ⟨series, hs⟩ := find_insert_self m handle []
      exact ⟨series, find_add_handles rest hs⟩
    · exact ih h (insert m k [])

theorem find_fresh_registered (interval_ : Nat) (now : system_time_point_t)
    {handle : nvml_t} (handles : List nvml_t) (hmem : handle ∈ handles) :
    find (add_handles (nvml_measurement_thread.new interval_ now) handles).measurements handle
      = some [] := by
  obtain ⟨series, hs⟩ := find_registered handles hmem []
  obtain ⟨k, hk⟩ := find_mem hs
  rcases add_handles_keys handles [] (k, series) hk with h | ⟨_, h2⟩
  · simp at h
  · have h3 : series = [] := h2
    subst h3
    exact hs

theorem all_returned_cons {handles : List nvml_t} {last : system_time_point_t}
    {c : Source × system_time_point_t} {rest : List (Source × system_time_point_t)}
    (h : all_returned handles last (c :: rest) = true) :
    (∀ g ∈ handles, ∃ L, c.1 g.metric g.device (last % UINT64_MOD) = .ok L) ∧
    all_returned handles c.2 rest = true := by
  simp only [all_returned, Bool.and_eq_true, List.all_eq_true] at h
  refine ⟨fun g hg => ?_, h.2⟩
  have h1 := h.1 g hg
  cases hq : c.1 g.metric g.device (last % UINT64_MOD) with
  | ok L => exact ⟨L, rfl⟩
  | error e => simp [hq] at h1

theorem sampling_loop_collects (handles : List nvml_t) (handle : nvml_t) :
    ∀ (cycles : List (Source × system_time_point_t)) (s : nvml_measurement_thread)
      (series : List pair_chrono_value_t),
      s.stop = false → (∀ entry ∈ s.measurements, entry.1 ∈ handles) →
      find s.measurements handle = some series →
      all_returned handles s.last cycles = true →
      find (sampling_loop s (uninterrupted cycles)).1.measurements handle
        = some (series ++ (answers handle s.last cycles).flatten.map stored) ∧
      (sampling_loop s (uninterrupted cycles)).2 = .running := by
  intro cycles
  induction cycles with
  | nil =>
    intro s series hrun _ hf _
    simp [uninterrupted, sampling_loop, hrun, answers, hf]
  | cons c rest ih =>
    intro s series hrun hkeys hf hall
    obtain ⟨hnow, hrest⟩ := all_returned_cons hall
    have hp := poll_entries_all_ok c.1 (s.last % UINT64_MOD) s.measurements
      (fun entry he => hnow entry.1 (hkeys entry he))
    have hstep : sampling_loop s (uninterrupted (c :: rest))
        = sampling_loop { s with
            measurements := s.measurements.map (fun entry =>
              (entry.1, push_all entry.2 (returned c.1 entry.1 (s.last % UINT64_MOD)))),
            last := c.2 } (uninterrupted rest) := by
      simp [uninterrupted, sampling_loop, hrun, loop_body, hp]
    rw [hstep]
    have hkeys1 : ∀ entry ∈ s.measurements.map (fun entry =>
        (entry.1, push_all entry.2 (returned c.1 entry.1 (s.last % UINT64_MOD)))),
        entry.1 ∈ handles := by
      intro entry he
      obtain ⟨x, hx, rfl⟩ := List.mem_map.mp he
      exact hkeys x hx
    have hf1 := find_polled c.1 (s.last % UINT64_MOD) handle s.measurements
    rw [hf] at hf1
    have := ih { s with
        measurements := s.measurements.map (fun entry =>
          (entry.1, push_all entry.2 (returned c.1 entry.1 (s.last % UINT64_MOD)))),
        last := c.2 } _ hrun hkeys1 hf1 hrest
    refine ⟨?_, this.2⟩
    rw [this.1]
    simp [answers, push_all, List.append_assoc]

theorem push_all_non_decreasing {series : List pair_chrono_value_t}
    {sampling_values : List pair_time_sampling_t}
    (hs : non_decreasing (series.map Prod.fst))
    (hn : non_decreasing (sampling_values.map Prod.fst))
    (hc : ∀ old ∈ series, ∀ new ∈ sampling_values, old.1 ≤ new.1) :
    non_decreasing ((push_all series sampling_values).map Prod.fst) := by
  unfold non_decreasing at *
  unfold push_all
  rw [List.map_append, List.pairwise_append]
  refine ⟨hs, ?_, ?_⟩
  · rw [List.map_map]
    have : (Prod.fst ∘ stored) = (Prod.fst : pair_time_sampling_t → Nat) := by
      funext pair
      simp [stored]
    rw [this]
    exact hn
  · intro a ha b hb
    obtain ⟨old, hold, rfl⟩ := List.mem_map.mp ha
    obtain ⟨x, hx, rfl⟩ := List.mem_map.mp hb
    obtain ⟨new, hnew, rfl⟩ := List.mem_map.mp hx
    simpa [stored] using hc old hold new hnew

theorem poll_entries_non_decreasing (get_value : Source) (t : Nat) :
    ∀ (m : Store), (∀ entry ∈ m, non_decreasing (entry.2.map Prod.fst)) →
      (∀ entry ∈ m, ∀ L, get_value entry.1.metric entry.1.device t = .ok L →
        non_decreasing (L.map Prod.fst) ∧ ∀ old ∈ entry.2, ∀ new ∈ L, old.1 ≤ new.1) →
      ∀ entry ∈ (poll_entries get_value t m).1, non_decreasing (entry.2.map Prod.fst) := by
  intro m
  induction m with
  | nil => intro _ _ entry he; simp [poll_entries] at he
  | cons first rest ih =>
    intro hs ho entry he
    obtain ⟨k, v⟩ := first
    cases hq : get_value k.metric k.device t with
    | error e =>
      rw [poll_entries_cons_error v rest hq] at he
      exact hs entry he
    | ok L =>
      rw [poll_entries_cons_ok v rest hq] at he
      rcases List.mem_cons.mp he with h | h
      · subst h
        obtain ⟨h1, h2⟩ := ho (k, v) (List.mem_cons_self _ _) L hq
        exact push_all_non_decreasing (hs (k, v) (List.mem_cons_self _ _)) h1 h2
      · exact ih (fun x hx => hs x (List.mem_cons_of_mem _ hx))
          (fun x hx => ho x (List.mem_cons_of_mem _ hx)) entry h

theorem orderly_poll_spec {s : nvml_measurement_thread} {get_value : Source}
    (h : orderly_poll s get_value = true) :
    ∀ entry ∈ s.measurements, ∀ L,
      get_value entry.1.metric entry.1.device (s.last % UINT64_MOD) = .ok L →
      non_decreasing (L.map Prod.fst) ∧ ∀ old ∈ entry.2, ∀ new ∈ L, old.1 ≤ new.1 := by
  intro entry he L hL
  simp only [orderly_poll, List.all_eq_true] at h
  have h1 := h entry he
  rw [hL] at h1
  simp only [Bool.and_eq_true, decide_eq_true_eq, List.all_eq_true] at h1
  exact h1

theorem step_keeps_order (s : nvml_measurement_thread) (op : Op)
    (hs : ∀ entry ∈ s.measurements, non_decreasing (entry.2.map Prod.fst))
    (ho : orderly s [op] = true) :
    ∀ entry ∈ (op.apply s).measurements, non_decreasing (entry.2.map Prod.fst) := by
  intro entry he
  cases op with
  | add_handles handles =>
    rcases add_handles_keys handles s.measurements entry he with h | ⟨_, h⟩
    · exact hs entry h
    · rw [h]; exact List.Pairwise.nil
  | get_readings other =>
    change entry ∈ (get_readings s other).2.measurements at he
    unfold get_readings at he
    cases hf : find s.measurements other with
    | some series => rw [hf] at he; exact hs entry he
    | none =>
      rw [hf] at he
      rcases List.mem_append.mp he with h | h
      · exact hs entry h
      · have : entry = (other, []) := by simpa using h
        rw [this]; exact List.Pairwise.nil
  | poll get_value now =>
    change entry ∈ (loop_body s get_value now).1.measurements at he
    rw [loop_body_measurements] at he
    have hp : orderly_poll s get_value = true := by
      simpa [orderly] using ho
    exact poll_entries_non_decreasing get_value _ s.measurements hs (orderly_poll_spec hp)
      entry he
  | stop_measurement => exact hs entry he

theorem run_keeps_order (ops : List Op) :
    ∀ (s : nvml_measurement_thread),
      (∀ entry ∈ s.measurements, non_decreasing (entry.2.map Prod.fst)) →
      orderly s ops = true →
      ∀ entry ∈ (run s ops).measurements, non_decreasing (entry.2.map Prod.fst) := by
  induction ops with
  | nil => intro s hs _; exact hs
  | cons op rest ih =>
    intro s hs ho
    have ho1 : orderly s [op] = true ∧ orderly (op.apply s) rest = true := by
      simp only [orderly, Bool.and_eq_true, Bool.and_true] at ho ⊢
      exact ho
    exact ih (op.apply s) (step_keeps_order s op hs ho1.1) ho1.2

/-- Witness for C5: a second poll of the engine that already holds one sample for A. -/
theorem operations_append_only_witness :
    find engine_one_sample.measurements handle_A = some [(100000, 5)] ∧
    ∃ later, find ((Op.poll source_one_sample 110000).apply engine_one_sample).measurements
        handle_A = some later ∧ [(100000, 5)] <+: later :=
  ⟨by decide,
    operations_append_only engine_one_sample (.poll source_one_sample 110000) handle_A
      [(100000, 5)] (by decide)⟩

/-- Witness for C6: after a read of A, a stop, a read of another handle and a second stop, the
read of A returns the same one sample. -/
theorem readings_idempotent_once_stopped_witness :
    (∀ op ∈ [Op.stop_measurement, Op.get_readings handle_B, Op.stop_measurement],
      op.quiet = true) ∧
    (get_readings engine_one_sample handle_A).1 = [(100000, 5)] ∧
    ((get_readings (run (get_readings engine_one_sample handle_A).2
        [.stop_measurement, .get_readings handle_B, .stop_measurement]) handle_A).1
      = (get_readings engine_one_sample handle_A).1 ∧
    (get_readings (run (get_readings engine_one_sample handle_A).2
        [.stop_measurement, .get_readings handle_B, .stop_measurement]) handle_A).2
      = run (get_readings engine_one_sample handle_A).2
          [.stop_measurement, .get_readings handle_B, .stop_measurement]) :=
  ⟨by simp [Op.quiet], by decide,
    readings_idempotent_once_stopped engine_one_sample handle_A
      [.stop_measurement, .get_readings handle_B, .stop_measurement] (by simp [Op.quiet])⟩

end MeasurementThread

namespace SamplingPlugin

/-- C7, a state on which the claim fails: the engine polled the source with last-seen 150000 and
holds the one sample (200000, 6) for the handle, while `get_all_values`, asking the source
itself with last-seen `begin.count() = 0`, writes two pairs to the cursor. -/
theorem get_all_values_ignores_store :
    (MeasurementThread.get_readings engine_after_one_poll engine_handle_power).1
      = [(200000, 6)] ∧
    get_all_values plugin_one_device (fun t => t + 1) buffered_source handle_power []
      = some (.ok [(100001, 5), (200001, 6)]) ∧
    get_all_values plugin_one_device (fun t => t + 1) buffered_source handle_power []
      ≠ some (.ok ((MeasurementThread.get_readings engine_after_one_poll
          engine_handle_power).1.map (fun sample => (sample.1 + 1, sample.2)))) := by
  refine ⟨by decide, rfl, ?_⟩
  intro h
  have h1 : (MeasurementThread.get_readings engine_after_one_poll engine_handle_power).1
      = [(200000, 6)] := by decide
  rw [h1] at h
  have h2 : get_all_values plugin_one_device (fun t => t + 1) buffered_source handle_power []
      = some (.ok [(100001, 5), (200001, 6)]) := rfl
  rw [h2] at h
  simp at h

/-- C7, amended. `get_all_values(handle, cursor)` asks the handle's Metric Source once, for the
device `nvml_devices[handle.device_id]` and the last-seen value `begin.count()`, and writes one
pair `(to_ticks(timestamp), value)` per returned sample to the cursor, in the returned order,
the values unchanged and nothing else; the engine's store is not read. -/
theorem get_all_values_writes_fresh_query (p : nvml_sampling_plugin) (to_ticks : Nat → Nat)
    (get_value : Source) (handle : nvml_t) (cursor : List (Nat × Nat)) (device : nvmlDevice_t)
    (data : List pair_time_sampling_t)
    (hdevice : p.nvml_devices.get? handle.device_id = some device)
    (hquery : get_value handle.metric device (p.begin % 2 ^ 64) = .ok data) :
    ∃ written,
      get_all_values p to_ticks get_value handle cursor = some (.ok (cursor ++ written)) ∧
      written.length = data.length ∧
      written.map Prod.snd = data.map Prod.snd ∧
      written.map Prod.fst = data.map (fun pair => to_ticks pair.1) := by
  refine ⟨data.map (fun pair => (to_ticks pair.1, pair.2)), ?_, ?_, ?_, ?_⟩
  · have hq : get_value handle.metric device (p.begin % UINT64_MOD) = .ok data := hquery
    simp only [get_all_values, hdevice, hq]
  · simp
  · simp [List.map_map, Function.comp_def]
  · simp [List.map_map, Function.comp_def]

/-- Witness for C7: the scenario plugin and the buffered source. -/
theorem get_all_values_writes_fresh_query_witness :
    plugin_one_device.nvml_devices.get? handle_power.device_id = some 7 ∧
    buffered_source handle_power.metric 7 (plugin_one_device.begin % 2 ^ 64)
      = .ok [(100000, 5), (200000, 6)] ∧
    ∃ written,
      get_all_values plugin_one_device (fun t => t + 1) buffered_source handle_power [(3, 4)]
        = some (.ok ([(3, 4)] ++ written)) ∧
      written.length = [((100000 : Nat), (5 : Nat)), (200000, 6)].length ∧
      written.map Prod.snd = [((100000 : Nat), (5 : Nat)), (200000, 6)].map Prod.snd ∧
      written.map Prod.fst
        = [((100000 : Nat), (5 : Nat)), (200000, 6)].map (fun pair => pair.1 + 1) :=
  ⟨rfl, rfl,
    get_all_values_writes_fresh_query plugin_one_device (fun t => t + 1) buffered_source
      handle_power [(3, 4)] 7 [(100000, 5), (200000, 6)] rfl rfl⟩

theorem digitChar_value : ∀ d, d < 10 → (Nat.digitChar d).toNat - 48 = d := by
  decide

theorem foldl_toDigitsCore (fuel : Nat) :
    ∀ (n : Nat) (ds : List Char), n < fuel →
      (Nat.toDigitsCore 10 fuel n ds).foldl (fun acc c => acc * 10 + (c.toNat - 48)) 0
        = ds.foldl (fun acc c => acc * 10 + (c.toNat - 48)) n := by
  induction fuel with
  | zero => intro n ds h; omega
  | succ f ih =>
    intro n ds h
    unfold Nat.toDigitsCore
    by_cases hz : n / 10 = 0
    · have hn : n % 10 = n := by omega
      simp only [hz, if_true, List.foldl_cons, hn]
      rw [digitChar_value n (by omega)]
      simp
    · simp only [hz, if_false]
      rw [ih (n / 10) _ (by omega)]
      simp only [List.foldl_cons]
      rw [digitChar_value (n % 10) (Nat.mod_lt _ (by decide))]
      congr 1
      omega

theorem to_string_injective {i j : Nat} (h : to_string i = to_string j) : i = j := by
  have h1 : Nat.toDigits 10 i = Nat.toDigits 10 j := by
    have := congrArg String.data h
    simpa [to_string, Nat.repr, List.asString] using this
  have hi := foldl_toDigitsCore (i + 1) i [] (Nat.lt_succ_self i)
  have hj := foldl_toDigitsCore (j + 1) j [] (Nat.lt_succ_self j)
  unfold Nat.toDigits at h1
  rw [h1] at hi
  simp only [List.foldl_nil] at hi hj
  omega

theorem new_name_injective (metric_name : String) {i j : Nat}
    (h : new_name metric_name i = new_name metric_name j) : i = j := by
  have h1 := congrArg String.data h
  simp only [new_name, String.data_append] at h1
  exact to_string_injective (String.ext (List.append_cancel_left h1))

theorem device_loop_listed (metric_name : String) (metric_type : Nvml_Sampling_Metric)
    (type : value_type) (mode : point_mode)
    (htype : ∀ property, set_datatype metric_name property metric_type.getDatatype
      = .ok { property with type := type })
    (hmode : ∀ property, set_measure_type metric_name property metric_type.getMeasureType
      = .ok { property with mode := mode }) :
    ∀ (indices : List Nat) (p : nvml_sampling_plugin) (properties : List metric_property),
      device_loop metric_name metric_type indices p properties
        = ({ p with handles := p.handles ++ indices.map (fun i =>
              (new_name metric_name i,
               { name := metric_name, device_id := i, metric := metric_type.address })) },
           .ok (properties ++ indices.map (fun i =>
              { name := new_name metric_name i, description := metric_type.getDesc,
                unit := metric_type.getUnit, type := type, mode := mode }))) := by
  intro indices
  induction indices with
  | nil => intro p properties; simp [device_loop]
  | cons i rest ih =>
    intro p properties
    have hstep : device_step metric_name metric_type i p
        = (make_handle p (new_name metric_name i)
            { name := metric_name, device_id := i, metric := metric_type.address },
           .ok { name := new_name metric_name i, description := metric_type.getDesc,
                 unit := metric_type.getUnit, type := type, mode := mode }) := by
      simp only [device_step, htype, hmode, new_name, metric_property.new]
    rw [device_loop, hstep]
    simp only [ih, make_handle, List.map_cons, List.append_assoc, List.singleton_append]

theorem digit_not_space {c : Char} {d : Nat} (h : digit_value c = some d) :
    isspace c = false := by
  unfold digit_value at h
  split at h
  · rename_i hc
    unfold isspace
    have h32 : (c == ' ') = false := by
      rw [beq_eq_false_iff_ne]
      intro hs
      rw [hs] at hc
      simp at hc
    rw [h32]
    simp only [Bool.false_or, Bool.and_eq_false_imp, decide_eq_true_eq, decide_eq_false_iff_not]
    omega
  · simp at h

theorem digit_not_sign {c : Char} {d : Nat} (h : digit_value c = some d)
    (rest : List Char) : split_sign (c :: rest) = (false, c :: rest) := by
  unfold digit_value at h
  split at h
  · rename_i hc
    have hminus : c ≠ '-' := by
      intro hs
      rw [hs] at hc
      simp at hc
    have hplus : c ≠ '+' := by
      intro hs
      rw [hs] at hc
      simp at hc
    unfold split_sign
    split
    · rename_i heq
      simp only [List.cons.injEq] at heq
      exact absurd heq.1 hminus
    · rename_i heq
      simp only [List.cons.injEq] at heq
      exact absurd heq.1 hplus
    · rfl
  · simp at h

theorem dropWhile_spaces (ws : List Char) (hws : ∀ c ∈ ws, isspace c = true)
    (c : Char) (rest : List Char) (hc : isspace c = false) :
    (ws ++ c :: rest).dropWhile isspace = c :: rest := by
  induction ws with
  | nil => simp [List.dropWhile, hc]
  | cons w ws ih =>
    have hw := hws w (List.mem_cons_self _ _)
    simp only [List.cons_append, List.dropWhile, hw]
    exact ih (fun x hx => hws x (List.mem_cons_of_mem _ hx))

theorem leading_digits_run (ds rest : List Char)
    (hds : ∀ c ∈ ds, (digit_value c).isSome = true)
    (hrest : ∀ c, rest.head? = some c → digit_value c = none) :
    leading_digits (ds ++ rest) = ds.filterMap digit_value := by
  induction ds with
  | nil =>
    cases rest with
    | nil => rfl
    | cons c t =>
      have := hrest c rfl
      simp [leading_digits, this]
  | cons c ds ih =>
    have hc := hds c (List.mem_cons_self _ _)
    obtain ⟨d, hd⟩ := Option.isSome_iff_exists.mp hc
    have ih1 := ih (fun x hx => hds x (List.mem_cons_of_mem _ hx))
    rw [List.cons_append, List.filterMap_cons, hd]
    show leading_digits (c :: (ds ++ rest)) = d :: List.filterMap digit_value ds
    rw [leading_digits, hd, ih1]

theorem stoul_accepts (ws ds rest : List Char)
    (hws : ∀ c ∈ ws, isspace c = true)
    (hne : ds ≠ [])
    (hds : ∀ c ∈ ds, (digit_value c).isSome = true)
    (hfit : decimal_value (ds.filterMap digit_value) ≤ ULONG_MAX)
    (hrest : ∀ c, rest.head? = some c → digit_value c = none) :
    stoul (String.mk (ws ++ ds ++ rest)) = .ok (decimal_value (ds.filterMap digit_value)) := by
  cases ds with
  | nil => exact absurd rfl hne
  | cons c t =>
    have hc := hds c (List.mem_cons_self _ _)
    obtain ⟨d, hd⟩ := Option.isSome_iff_exists.mp hc
    have hdrop : (ws ++ (c :: t) ++ rest).dropWhile isspace = c :: (t ++ rest) := by
      rw [List.append_assoc, List.cons_append]
      exact dropWhile_spaces ws hws c (t ++ rest) (digit_not_space hd)
    have hrun := leading_digits_run (c :: t) rest hds hrest
    rw [List.cons_append] at hrun
    have hnonempty : (c :: t).filterMap digit_value ≠ [] := by
      simp [List.filterMap_cons, hd]
    have hfit1 : ¬ ULONG_MAX < decimal_value ((c :: t).filterMap digit_value) := by omega
    unfold stoul
    simp only [String.toList, hdrop, digit_not_sign hd, hrun, hnonempty, if_false, hfit1]
    rfl

theorem stoul_rejects (str : String) (h : starts_without_number str = true) :
    stoul str = .error .invalid_argument := by
  obtain ⟨cs⟩ := str
  cases cs with
  | nil => rfl
  | cons c t =>
    simp only [starts_without_number, String.toList, Bool.and_eq_true, Bool.not_eq_true',
      bne_iff_ne, ne_eq, Option.isNone_iff_eq_none] at h
    obtain ⟨⟨⟨hspace, hminus⟩, hplus⟩, hdigit⟩ := h
    have hsign : split_sign (c :: t) = (false, c :: t) := by
      unfold split_sign
      split
      · rename_i heq
        simp only [List.cons.injEq] at heq
        exact absurd heq.1 hminus
      · rename_i heq
        simp only [List.cons.injEq] at heq
        exact absurd heq.1 hplus
      · rfl
    unfold stoul
    simp [String.toList, List.dropWhile, hspace, hsign, leading_digits, hdigit]

/-- C10. For every interval text that `std::stoul` converts to `n`,
`get_metric_gather_interval` returns the truncating quotient `n / CLOCKS_PER_SEC`; it is 0 for
every `n < CLOCKS_PER_SEC`, non-zero exactly when `n >= CLOCKS_PER_SEC`, and 0 for the default
text "5" used when the variable is unset. -/
theorem gather_interval_truncating_quotient (INTERVAL : Option String) (n : Nat)
    (h : stoul (INTERVAL.getD "5") = .ok n) :
    get_metric_gather_interval INTERVAL = .ok (n / CLOCKS_PER_SEC) ∧
    (n < CLOCKS_PER_SEC → get_metric_gather_interval INTERVAL = .ok 0) ∧
    (n / CLOCKS_PER_SEC ≠ 0 ↔ CLOCKS_PER_SEC ≤ n) ∧
    stoul ((none : Option String).getD "5") = .ok 5 ∧
    get_metric_gather_interval none = .ok 0 := by
  have hval : get_metric_gather_interval INTERVAL = .ok (n / CLOCKS_PER_SEC) := by
    simp only [get_metric_gather_interval, h]
  refine ⟨hval, ?_, ?_, rfl, rfl⟩
  · intro hlt
    rw [hval, Nat.div_eq_of_lt hlt]
  · have hpos : 0 < CLOCKS_PER_SEC := by decide
    constructor
    · intro hne
      by_contra hlt
      exact hne (Nat.div_eq_of_lt (by omega))
    · intro hle
      exact Nat.ne_of_gt (Nat.div_pos hle hpos)

/-- Witness for C10: the text "2500000" converts to 2500000 and yields the interval 2. -/
theorem gather_interval_truncating_quotient_witness :
    stoul ((some "2500000").getD "5") = .ok 2500000 ∧
    (get_metric_gather_interval (some "2500000") = .ok (2500000 / CLOCKS_PER_SEC) ∧
    (2500000 < CLOCKS_PER_SEC → get_metric_gather_interval (some "2500000") = .ok 0) ∧
    (2500000 / CLOCKS_PER_SEC ≠ 0 ↔ CLOCKS_PER_SEC ≤ 2500000) ∧
    stoul ((none : Option String).getD "5") = .ok 5 ∧
    get_metric_gather_interval none = .ok 0) :=
  ⟨rfl, gather_interval_truncating_quotient (some "2500000") 2500000 rfl⟩

end SamplingPlugin

end Nvml
